import Mathlib

/-!
Verification of the signaling-relay server (src/server/server.js).

The server keeps a registry of rooms (a JS object mapping room ids to
room records with a host socket and a client socket list) and, per
connection, the fields ws.roomId / ws.isHost set by the message handlers.
We embed the registry as a function from room-id strings to optional
rooms, a connection table as a function from connection ids to their
attributes, and each handler as a function from state and event to the
new state plus the list of emitted transport actions (sends and closes).
JSON.stringify of a structured message is embedded as the Wire.json
constructor; re-sending the raw received bytes (the input-forwarding
path) is Wire.raw, so serialized and raw payloads stay distinguishable.
-/

/-- Connection identifier (stands for a WebSocket object; JS compares
sockets by identity, which we model as equality of identifiers). -/
abbrev CID := Nat

/-- Per-connection attributes: ws.roomId, ws.isHost, and the socket's
readyState collapsed to a Boolean (true = WebSocket.OPEN). -/
structure Conn where
  roomId : Option String
  isHost : Bool
  readyState : Bool
deriving DecidableEq, Repr

/-- A room record: { host: WebSocket | null, clients: [...] }. -/
structure Room where
  host : Option CID
  clients : List CID
deriving DecidableEq, Repr

/-- One entry of the playerList payload: { id, name }. -/
structure Player where
  id : String
  name : String
deriving DecidableEq, Repr

/-- Parsed inbound message, dispatched on data.type.  The createRoom
constructor carries the uuidv4() result as an oracle input (identifier
generation is external to the core).  The payload fields of the
signaling / application messages are the remaining JSON fields, kept
opaque: the relay never inspects them. -/
inductive Data where
  | createRoom (freshId : String)
  | joinRoom (roomId : String)
  | startGame
  | offer (payload : String)
  | answer (payload : String)
  | candidate (payload : String)
  | gameState (payload : String)
  | input (payload : String)
  | other (type : String)
deriving DecidableEq, Repr

/-- Outbound structured messages, exactly the shapes the server builds.
echo d is JSON.stringify(data) applied to a received message that is
relayed unmodified. -/
inductive OutMsg where
  | roomCreated (roomId : String)
  | error (message : String)
  | playerList (players : List Player)
  | startGame
  | roomClosed
  | echo (d : Data)
deriving DecidableEq, Repr

/-- What actually goes over a socket: a JSON-serialized structured
message, or the raw bytes of an earlier inbound frame re-sent as-is. -/
inductive Wire where
  | json (m : OutMsg)
  | raw (s : String)
deriving DecidableEq, Repr

/-- Transport actions the server performs: ws.send(payload) and
ws.close(). -/
inductive Emit where
  | send (dst : CID) (payload : Wire)
  | closeConn (dst : CID)
deriving DecidableEq, Repr

/-- Whole-server state: the rooms registry plus every connection's
attributes. -/
structure ServerState where
  rooms : String → Option Room
  conns : CID → Conn

def ServerState.setRoom (st : ServerState) (id : String) (r : Option Room) : ServerState :=
  { st with rooms := fun i => if i = id then r else st.rooms i }

def ServerState.setConn (st : ServerState) (c : CID) (k : Conn) : ServerState :=
  { st with conns := fun x => if x = c then k else st.conns x }

/-- forEach(socket => if (socket.readyState === OPEN) socket.send(msg)). -/
def sendToOpen (st : ServerState) (w : Wire) : List CID → List Emit
  | [] => []
  | c :: rest =>
      (if (st.conns c).readyState then [Emit.send c w] else []) ++ sendToOpen st w rest

/-- The players array built by broadcastPlayerList: a host entry when
the host reference is non-null, then one entry per client labelled by
its current index. -/
def playersFor (r : Room) : List Player :=
  (match r.host with
   | some _ => [{ id := "host", name := "Host" }]
   | none => []) ++
  (List.range r.clients.length).map
    (fun i => { id := "client-" ++ toString i, name := "Cliente " ++ toString i })

/-- broadcastPlayerList(roomId): build the players payload and send the
identical serialized message to the host (if open) and every open
client. -/
def broadcastPlayerList (st : ServerState) (rid : String) : List Emit :=
  match st.rooms rid with
  | none => []
  | some room =>
      let w := Wire.json (OutMsg.playerList (playersFor room))
      (match room.host with
       | some h => if (st.conns h).readyState then [Emit.send h w] else []
       | none => []) ++ sendToOpen st w room.clients

/-- broadcastInRoom(roomId, obj): serialize once, send to host (if open)
and every open client. -/
def broadcastInRoom (st : ServerState) (rid : String) (m : OutMsg) : List Emit :=
  match st.rooms rid with
  | none => []
  | some room =>
      (match room.host with
       | some h => if (st.conns h).readyState then [Emit.send h (Wire.json m)] else []
       | none => []) ++ sendToOpen st (Wire.json m) room.clients

/-- handleWebRTCSignaling(ws, data): host relays to every open client,
a client relays to the host only. -/
def handleWebRTCSignaling (st : ServerState) (c : CID) (d : Data) : List Emit :=
  match (st.conns c).roomId with
  | none => []
  | some rid =>
      match st.rooms rid with
      | none => []
      | some room =>
          if (st.conns c).isHost then
            sendToOpen st (Wire.json (OutMsg.echo d)) room.clients
          else
            match room.host with
            | some h =>
                if (st.conns h).readyState then [Emit.send h (Wire.json (OutMsg.echo d))] else []
            | none => []

/-- The ws.on('message') handler: dispatch on data.type.  raw is the
original received frame (used verbatim by the input-forwarding path). -/
def handleMessage (st : ServerState) (c : CID) (raw : String) (d : Data) :
    ServerState × List Emit :=
  match d with
  | Data.createRoom newRoomId =>
      let st1 := (st.setRoom newRoomId (some { host := some c, clients := [] })).setConn c
        { st.conns c with roomId := some newRoomId, isHost := true }
      (st1, [Emit.send c (Wire.json (OutMsg.roomCreated newRoomId))])
  | Data.joinRoom roomId =>
      match st.rooms roomId with
      | none =>
          (st, [Emit.send c (Wire.json (OutMsg.error "Sala no existe"))])
      | some room =>
          let st1 := (st.setConn c
              { st.conns c with roomId := some roomId, isHost := false }).setRoom roomId
            (some { room with clients := room.clients ++ [c] })
          (st1, broadcastPlayerList st1 roomId)
  | Data.startGame =>
      (st,
        if (st.conns c).isHost then
          match (st.conns c).roomId with
          | some rid =>
              match st.rooms rid with
              | some _ => broadcastInRoom st rid OutMsg.startGame
              | none => []
          | none => []
        else [])
  | Data.offer _ => (st, handleWebRTCSignaling st c d)
  | Data.answer _ => (st, handleWebRTCSignaling st c d)
  | Data.candidate _ => (st, handleWebRTCSignaling st c d)
  | Data.gameState _ =>
      (st,
        match (st.conns c).roomId with
        | some rid =>
            match st.rooms rid with
            | some _ => broadcastInRoom st rid (OutMsg.echo d)
            | none => []
        | none => [])
  | Data.input _ =>
      (st,
        if (st.conns c).isHost then []
        else
          match (st.conns c).roomId with
          | some rid =>
              match st.rooms rid with
              | some room =>
                  match room.host with
                  | some h =>
                      if (st.conns h).readyState then [Emit.send h (Wire.raw raw)] else []
                  | none => []
              | none => []
          | none => [])
  | Data.other _ => (st, [])

/-- The per-client body of the host-departure loop: send roomClosed and
close each still-open client, in list order. -/
def roomClosedActs (st : ServerState) : List CID → List Emit
  | [] => []
  | cl :: rest =>
      (if (st.conns cl).readyState then
        [Emit.send cl (Wire.json OutMsg.roomClosed), Emit.closeConn cl]
      else []) ++ roomClosedActs st rest

/-- The ws.on('close') handler.  The socket's readyState drops before
the handler body runs; then the host branch notifies and closes every
client and deletes the room, and the client branch filters the departed
socket out of the list and rebroadcasts the player list. -/
def handleClose (st : ServerState) (c : CID) : ServerState × List Emit :=
  let st0 := st.setConn c { st.conns c with readyState := false }
  match (st.conns c).roomId with
  | none => (st0, [])
  | some rid =>
      match st.rooms rid with
      | none => (st0, [])
      | some room =>
          if (st.conns c).isHost then
            (st0.setRoom rid none, roomClosedActs st0 room.clients)
          else
            let st1 := st0.setRoom rid
              (some { room with clients := room.clients.filter (fun x => x ≠ c) })
            (st1, broadcastPlayerList st1 rid)

/-- External events driving the server: an inbound parsed frame (with
its raw bytes) or a connection closing. -/
inductive Event where
  | recv (c : CID) (raw : String) (d : Data)
  | close (c : CID)
deriving DecidableEq, Repr

def step (st : ServerState) : Event → ServerState × List Emit
  | Event.recv c raw d => handleMessage st c raw d
  | Event.close c => handleClose st c

/-- All connections start unbound and open (ws.roomId = null,
ws.isHost = false on connection; we pre-initialize every identifier),
and no room exists. -/
def initState : ServerState :=
  { rooms := fun _ => none
    conns := fun _ => { roomId := none, isHost := false, readyState := true } }

def runFrom (st : ServerState) : List Event → ServerState
  | [] => st
  | e :: es => runFrom (step st e).1 es

def runTrace (tr : List Event) : ServerState :=
  runFrom initState tr

/-- Membership of a connection in a room: the room's host or one of its
clients. -/
abbrev memberOf (r : Room) (c : CID) : Prop :=
  r.host = some c ∨ c ∈ r.clients

/-- Admissibility of one event against the current state: sockets only
deliver frames / close events while open, a connection sends createRoom
or joinRoom only while not yet bound to a room, and uuidv4() results
are fresh (collision-free identifier generation, assumed by the spec). -/
def wbStep (st : ServerState) : Event → Bool
  | Event.recv c _ d =>
      (st.conns c).readyState &&
      (match d with
       | Data.createRoom freshId => (st.conns c).roomId.isNone && (st.rooms freshId).isNone
       | Data.joinRoom _ => (st.conns c).roomId.isNone
       | _ => true)
  | Event.close c => (st.conns c).readyState

/-- A trace every event of which is admissible in the state it meets. -/
def WellBehaved (st : ServerState) : List Event → Bool
  | [] => true
  | e :: es => wbStep st e && WellBehaved (step st e).1 es

/-- A convenient concrete trace: connection 1 creates room "A", then
connection 0 joins it twice.  Used to exhibit the duplicate-membership
behavior of joinRoom. -/
def doubleJoinTrace : List Event :=
  [Event.recv 1 "a" (Data.createRoom "A"),
   Event.recv 0 "b" (Data.joinRoom "A"),
   Event.recv 0 "c" (Data.joinRoom "A")]

/-- A concrete well-behaved trace: connection 0 creates room "A",
connections 1 and 2 join it. -/
def smallTrace : List Event :=
  [Event.recv 0 "a" (Data.createRoom "A"),
   Event.recv 1 "b" (Data.joinRoom "A"),
   Event.recv 2 "c" (Data.joinRoom "A")]

/-- The state reached by smallTrace. -/
def smallSt : ServerState := runTrace smallTrace

/-- The inductive well-formedness invariant maintained by every
admissible event: membership only in the room a connection is bound to,
no duplicate clients, the host is never also a client, hosts carry the
isHost flag, and every member socket is still open. -/
structure StInv (st : ServerState) : Prop where
  bound : ∀ c id r, st.rooms id = some r → memberOf r c → (st.conns c).roomId = some id
  nodup : ∀ id r, st.rooms id = some r → r.clients.Nodup
  hostNotClient : ∀ id r h, st.rooms id = some r → r.host = some h → h ∉ r.clients
  hostFlag : ∀ id r h, st.rooms id = some r → r.host = some h → (st.conns h).isHost = true
  openMembers : ∀ c id r, st.rooms id = some r → memberOf r c → (st.conns c).readyState = true

theorem setRoom_rooms_same (st : ServerState) (id : String) (r : Option Room) :
    (st.setRoom id r).rooms id = r := by
  simp [ServerState.setRoom]

theorem setRoom_rooms_other (st : ServerState) (id i : String) (r : Option Room)
    (h : i ≠ id) : (st.setRoom id r).rooms i = st.rooms i := by
  simp [ServerState.setRoom, h]

theorem setRoom_conns (st : ServerState) (id : String) (r : Option Room) :
    (st.setRoom id r).conns = st.conns := rfl

theorem setConn_conns_same (st : ServerState) (c : CID) (k : Conn) :
    (st.setConn c k).conns c = k := by
  simp [ServerState.setConn]

theorem setConn_conns_other (st : ServerState) (c x : CID) (k : Conn)
    (h : x ≠ c) : (st.setConn c k).conns x = st.conns x := by
  simp [ServerState.setConn, h]

theorem setConn_rooms (st : ServerState) (c : CID) (k : Conn) :
    (st.setConn c k).rooms = st.rooms := rfl

theorem unbound_no_membership {st : ServerState} (hI : StInv st) {c : CID}
    (hc : (st.conns c).roomId = none) {id : String} {r : Room}
    (hr : st.rooms id = some r) : ¬ memberOf r c := by
  intro hm
  have hb := hI.bound c id r hr hm
  rw [hc] at hb
  exact Option.noConfusion hb

theorem hm_createRoom (st : ServerState) (c : CID) (raw fresh : String) :
    handleMessage st c raw (Data.createRoom fresh) =
      ((st.setRoom fresh (some { host := some c, clients := [] })).setConn c
         { st.conns c with roomId := some fresh, isHost := true },
       [Emit.send c (Wire.json (OutMsg.roomCreated fresh))]) := rfl

theorem hm_joinRoom_none {st : ServerState} (c : CID) (raw : String) {rid : String}
    (h : st.rooms rid = none) :
    handleMessage st c raw (Data.joinRoom rid) =
      (st, [Emit.send c (Wire.json (OutMsg.error "Sala no existe"))]) := by
  simp [handleMessage, h]

theorem hm_joinRoom_some {st : ServerState} (c : CID) (raw : String) {rid : String}
    {room : Room} (h : st.rooms rid = some room) :
    handleMessage st c raw (Data.joinRoom rid) =
      (((st.setConn c { st.conns c with roomId := some rid, isHost := false }).setRoom rid
          (some { room with clients := room.clients ++ [c] })),
       broadcastPlayerList
         ((st.setConn c { st.conns c with roomId := some rid, isHost := false }).setRoom rid
           (some { room with clients := room.clients ++ [c] })) rid) := by
  simp [handleMessage, h]

theorem hm_fst_startGame (st : ServerState) (c : CID) (raw : String) :
    (handleMessage st c raw Data.startGame).1 = st := rfl

theorem hm_fst_offer (st : ServerState) (c : CID) (raw p : String) :
    (handleMessage st c raw (Data.offer p)).1 = st := rfl

theorem hm_fst_answer (st : ServerState) (c : CID) (raw p : String) :
    (handleMessage st c raw (Data.answer p)).1 = st := rfl

theorem hm_fst_candidate (st : ServerState) (c : CID) (raw p : String) :
    (handleMessage st c raw (Data.candidate p)).1 = st := rfl

theorem hm_fst_gameState (st : ServerState) (c : CID) (raw p : String) :
    (handleMessage st c raw (Data.gameState p)).1 = st := rfl

theorem hm_fst_input (st : ServerState) (c : CID) (raw p : String) :
    (handleMessage st c raw (Data.input p)).1 = st := rfl

theorem hm_fst_other (st : ServerState) (c : CID) (raw t : String) :
    (handleMessage st c raw (Data.other t)).1 = st := rfl

theorem hc_unbound {st : ServerState} {c : CID} (h : (st.conns c).roomId = none) :
    handleClose st c = (st.setConn c { st.conns c with readyState := false }, []) := by
  simp [handleClose, h]

theorem hc_noroom {st : ServerState} {c : CID} {rid : String}
    (hrid : (st.conns c).roomId = some rid) (h : st.rooms rid = none) :
    handleClose st c = (st.setConn c { st.conns c with readyState := false }, []) := by
  simp [handleClose, hrid, h]

theorem hc_host {st : ServerState} {c : CID} {rid : String} {room : Room}
    (hrid : (st.conns c).roomId = some rid) (h : st.rooms rid = some room)
    (hh : (st.conns c).isHost = true) :
    handleClose st c =
      ((st.setConn c { st.conns c with readyState := false }).setRoom rid none,
       roomClosedActs (st.setConn c { st.conns c with readyState := false }) room.clients) := by
  simp [handleClose, hrid, h, hh]

theorem hc_client {st : ServerState} {c : CID} {rid : String} {room : Room}
    (hrid : (st.conns c).roomId = some rid) (h : st.rooms rid = some room)
    (hh : (st.conns c).isHost = false) :
    handleClose st c =
      (((st.setConn c { st.conns c with readyState := false }).setRoom rid
          (some { room with clients := room.clients.filter (fun x => x ≠ c) })),
       broadcastPlayerList
         ((st.setConn c { st.conns c with readyState := false }).setRoom rid
           (some { room with clients := room.clients.filter (fun x => x ≠ c) })) rid) := by
  simp [handleClose, hrid, h, hh]

theorem setRoomConn_rooms (st : ServerState) (id : String) (v : Option Room) (c : CID)
    (k : Conn) (i : String) :
    ((st.setRoom id v).setConn c k).rooms i = if i = id then v else st.rooms i := rfl

theorem setRoomConn_conns (st : ServerState) (id : String) (v : Option Room) (c : CID)
    (k : Conn) (x : CID) :
    ((st.setRoom id v).setConn c k).conns x = if x = c then k else st.conns x := rfl

theorem setConnRoom_rooms (st : ServerState) (c : CID) (k : Conn) (id : String)
    (v : Option Room) (i : String) :
    ((st.setConn c k).setRoom id v).rooms i = if i = id then v else st.rooms i := rfl

theorem setConnRoom_conns (st : ServerState) (c : CID) (k : Conn) (id : String)
    (v : Option Room) (x : CID) :
    ((st.setConn c k).setRoom id v).conns x = if x = c then k else st.conns x := rfl

theorem inv_createRoom {st : ServerState} {c : CID} {raw fresh : String} (hI : StInv st)
    (hopen : (st.conns c).readyState = true) (hun : (st.conns c).roomId = none)
    (hfresh : st.rooms fresh = none) :
    StInv (handleMessage st c raw (Data.createRoom fresh)).1 := by
  rw [hm_createRoom]
  refine ⟨?_, ?_, ?_, ?_, ?_⟩
  · intro x id r hr hm
    rw [setRoomConn_rooms] at hr
    rw [setRoomConn_conns]
    by_cases hid : id = fresh
    · subst hid
      rw [if_pos rfl] at hr
      obtain rfl := Option.some.inj hr
      rcases hm with hm | hm
      · obtain rfl := Option.some.inj hm
        rw [if_pos rfl]
      · exact absurd hm (List.not_mem_nil x)
    · rw [if_neg hid] at hr
      have hb := hI.bound x id r hr hm
      by_cases hxc : x = c
      · subst hxc
        rw [hun] at hb
        exact Option.noConfusion hb
      · rw [if_neg hxc]
        exact hb
  · intro id r hr
    rw [setRoomConn_rooms] at hr
    by_cases hid : id = fresh
    · subst hid
      rw [if_pos rfl] at hr
      obtain rfl := Option.some.inj hr
      exact List.nodup_nil
    · rw [if_neg hid] at hr
      exact hI.nodup id r hr
  · intro id r h hr hh
    rw [setRoomConn_rooms] at hr
    by_cases hid : id = fresh
    · subst hid
      rw [if_pos rfl] at hr
      obtain rfl := Option.some.inj hr
      exact List.not_mem_nil h
    · rw [if_neg hid] at hr
      exact hI.hostNotClient id r h hr hh
  · intro id r h hr hh
    rw [setRoomConn_rooms] at hr
    rw [setRoomConn_conns]
    by_cases hid : id = fresh
    · subst hid
      rw [if_pos rfl] at hr
      obtain rfl := Option.some.inj hr
      obtain rfl := Option.some.inj hh
      rw [if_pos rfl]
    · rw [if_neg hid] at hr
      have hb := hI.bound h id r hr (Or.inl hh)
      by_cases hxc : h = c
      · subst hxc
        rw [hun] at hb
        exact Option.noConfusion hb
      · rw [if_neg hxc]
        exact hI.hostFlag id r h hr hh
  · intro x id r hr hm
    rw [setRoomConn_rooms] at hr
    rw [setRoomConn_conns]
    by_cases hid : id = fresh
    · subst hid
      rw [if_pos rfl] at hr
      obtain rfl := Option.some.inj hr
      rcases hm with hm | hm
      · obtain rfl := Option.some.inj hm
        rw [if_pos rfl]
        exact hopen
      · exact absurd hm (List.not_mem_nil x)
    · rw [if_neg hid] at hr
      have hb := hI.bound x id r hr hm
      by_cases hxc : x = c
      · subst hxc
        rw [hun] at hb
        exact Option.noConfusion hb
      · rw [if_neg hxc]
        exact hI.openMembers x id r hr hm

theorem inv_joinRoom {st : ServerState} {c : CID} {raw rid : String} {room : Room}
    (hI : StInv st) (hopen : (st.conns c).readyState = true)
    (hun : (st.conns c).roomId = none) (hroom : st.rooms rid = some room) :
    StInv (handleMessage st c raw (Data.joinRoom rid)).1 := by
  rw [hm_joinRoom_some c raw hroom]
  have hnc : c ∉ room.clients := fun hmem => unbound_no_membership hI hun hroom (Or.inr hmem)
  have hnh : room.host ≠ some c := fun hh => unbound_no_membership hI hun hroom (Or.inl hh)
  refine ⟨?_, ?_, ?_, ?_, ?_⟩
  · intro x id r hr hm
    rw [setConnRoom_rooms] at hr
    rw [setConnRoom_conns]
    by_cases hid : id = rid
    · subst hid
      rw [if_pos rfl] at hr
      obtain rfl := Option.some.inj hr
      by_cases hxc : x = c
      · subst hxc
        rw [if_pos rfl]
      · rw [if_neg hxc]
        have hm2 : memberOf room x := by
          rcases hm with hm | hm
          · exact Or.inl hm
          · rcases List.mem_append.mp hm with h2 | h2
            · exact Or.inr h2
            · rw [List.mem_singleton] at h2
              exact absurd h2 hxc
        exact hI.bound x id room hroom hm2
    · rw [if_neg hid] at hr
      have hb := hI.bound x id r hr hm
      by_cases hxc : x = c
      · subst hxc
        rw [hun] at hb
        exact Option.noConfusion hb
      · rw [if_neg hxc]
        exact hb
  · intro id r hr
    rw [setConnRoom_rooms] at hr
    by_cases hid : id = rid
    · subst hid
      rw [if_pos rfl] at hr
      obtain rfl := Option.some.inj hr
      rw [List.nodup_append]
      refine ⟨hI.nodup id room hroom, List.nodup_singleton c, ?_⟩
      intro a ha hb
      rw [List.mem_singleton] at hb
      subst hb
      exact hnc ha
    · rw [if_neg hid] at hr
      exact hI.nodup id r hr
  · intro id r h hr hh
    rw [setConnRoom_rooms] at hr
    by_cases hid : id = rid
    · subst hid
      rw [if_pos rfl] at hr
      obtain rfl := Option.some.inj hr
      intro hmem
      rcases List.mem_append.mp hmem with h2 | h2
      · exact hI.hostNotClient id room h hroom hh h2
      · rw [List.mem_singleton] at h2
        subst h2
        exact hnh hh
    · rw [if_neg hid] at hr
      exact hI.hostNotClient id r h hr hh
  · intro id r h hr hh
    rw [setConnRoom_rooms] at hr
    rw [setConnRoom_conns]
    by_cases hid : id = rid
    · subst hid
      rw [if_pos rfl] at hr
      obtain rfl := Option.some.inj hr
      have hhc : h ≠ c := fun he => hnh (he ▸ hh)
      rw [if_neg hhc]
      exact hI.hostFlag id room h hroom hh
    · rw [if_neg hid] at hr
      have hb := hI.bound h id r hr (Or.inl hh)
      by_cases hxc : h = c
      · subst hxc
        rw [hun] at hb
        exact Option.noConfusion hb
      · rw [if_neg hxc]
        exact hI.hostFlag id r h hr hh
  · intro x id r hr hm
    rw [setConnRoom_rooms] at hr
    rw [setConnRoom_conns]
    by_cases hid : id = rid
    · subst hid
      rw [if_pos rfl] at hr
      obtain rfl := Option.some.inj hr
      by_cases hxc : x = c
      · subst hxc
        rw [if_pos rfl]
        exact hopen
      · rw [if_neg hxc]
        have hm2 : memberOf room x := by
          rcases hm with hm | hm
          · exact Or.inl hm
          · rcases List.mem_append.mp hm with h2 | h2
            · exact Or.inr h2
            · rw [List.mem_singleton] at h2
              exact absurd h2 hxc
        exact hI.openMembers x id room hroom hm2
    · rw [if_neg hid] at hr
      have hb := hI.bound x id r hr hm
      by_cases hxc : x = c
      · subst hxc
        rw [hun] at hb
        exact Option.noConfusion hb
      · rw [if_neg hxc]
        exact hI.openMembers x id r hr hm

theorem inv_setClosed {st : ServerState} {c : CID} (hI : StInv st)
    (hno : ∀ id r, st.rooms id = some r → ¬ memberOf r c) :
    StInv (st.setConn c { st.conns c with readyState := false }) := by
  refine ⟨?_, ?_, ?_, ?_, ?_⟩
  · intro x id r hr hm
    rw [setConn_rooms] at hr
    by_cases hxc : x = c
    · subst hxc
      exact absurd hm (hno id r hr)
    · rw [setConn_conns_other st c x _ hxc]
      exact hI.bound x id r hr hm
  · intro id r hr
    rw [setConn_rooms] at hr
    exact hI.nodup id r hr
  · intro id r h hr hh
    rw [setConn_rooms] at hr
    exact hI.hostNotClient id r h hr hh
  · intro id r h hr hh
    rw [setConn_rooms] at hr
    by_cases hxc : h = c
    · subst hxc
      exact absurd (Or.inl hh) (hno id r hr)
    · rw [setConn_conns_other st c h _ hxc]
      exact hI.hostFlag id r h hr hh
  · intro x id r hr hm
    rw [setConn_rooms] at hr
    by_cases hxc : x = c
    · subst hxc
      exact absurd hm (hno id r hr)
    · rw [setConn_conns_other st c x _ hxc]
      exact hI.openMembers x id r hr hm

theorem inv_closeHost {st : ServerState} {c : CID} {rid : String} {room : Room}
    (hI : StInv st) (hrid : (st.conns c).roomId = some rid)
    (hroom : st.rooms rid = some room) (hh : (st.conns c).isHost = true) :
    StInv (handleClose st c).1 := by
  rw [hc_host hrid hroom hh]
  have hnc : ∀ x id r, st.rooms id = some r → id ≠ rid → memberOf r x → x ≠ c := by
    intro x id r hr hne hm he
    subst he
    have hb := hI.bound x id r hr hm
    rw [hrid] at hb
    exact hne (Option.some.inj hb).symm
  refine ⟨?_, ?_, ?_, ?_, ?_⟩
  · intro x id r hr hm
    rw [setConnRoom_rooms] at hr
    rw [setConnRoom_conns]
    by_cases hid : id = rid
    · subst hid
      rw [if_pos rfl] at hr
      exact Option.noConfusion hr
    · rw [if_neg hid] at hr
      rw [if_neg (hnc x id r hr hid hm)]
      exact hI.bound x id r hr hm
  · intro id r hr
    rw [setConnRoom_rooms] at hr
    by_cases hid : id = rid
    · subst hid
      rw [if_pos rfl] at hr
      exact Option.noConfusion hr
    · rw [if_neg hid] at hr
      exact hI.nodup id r hr
  · intro id r h hr hh2
    rw [setConnRoom_rooms] at hr
    by_cases hid : id = rid
    · subst hid
      rw [if_pos rfl] at hr
      exact Option.noConfusion hr
    · rw [if_neg hid] at hr
      exact hI.hostNotClient id r h hr hh2
  · intro id r h hr hh2
    rw [setConnRoom_rooms] at hr
    rw [setConnRoom_conns]
    by_cases hid : id = rid
    · subst hid
      rw [if_pos rfl] at hr
      exact Option.noConfusion hr
    · rw [if_neg hid] at hr
      rw [if_neg (hnc h id r hr hid (Or.inl hh2))]
      exact hI.hostFlag id r h hr hh2
  · intro x id r hr hm
    rw [setConnRoom_rooms] at hr
    rw [setConnRoom_conns]
    by_cases hid : id = rid
    · subst hid
      rw [if_pos rfl] at hr
      exact Option.noConfusion hr
    · rw [if_neg hid] at hr
      rw [if_neg (hnc x id r hr hid hm)]
      exact hI.openMembers x id r hr hm

theorem mem_filter_ne {l : List CID} {x c : CID} :
    x ∈ l.filter (fun y => y ≠ c) ↔ x ∈ l ∧ x ≠ c := by
  simp [List.mem_filter]

theorem inv_closeClient {st : ServerState} {c : CID} {rid : String} {room : Room}
    (hI : StInv st) (hrid : (st.conns c).roomId = some rid)
    (hroom : st.rooms rid = some room) (hh : (st.conns c).isHost = false) :
    StInv (handleClose st c).1 := by
  rw [hc_client hrid hroom hh]
  have hnc : ∀ x id r, st.rooms id = some r → id ≠ rid → memberOf r x → x ≠ c := by
    intro x id r hr hne hm he
    subst he
    have hb := hI.bound x id r hr hm
    rw [hrid] at hb
    exact hne (Option.some.inj hb).symm
  have hhostne : ∀ h, room.host = some h → h ≠ c := by
    intro h hhh he
    subst he
    rw [hI.hostFlag rid room h hroom hhh] at hh
    exact Bool.noConfusion hh
  refine ⟨?_, ?_, ?_, ?_, ?_⟩
  · intro x id r hr hm
    rw [setConnRoom_rooms] at hr
    rw [setConnRoom_conns]
    by_cases hid : id = rid
    · subst hid
      rw [if_pos rfl] at hr
      obtain rfl := Option.some.inj hr
      rcases hm with hm | hm
      · rw [if_neg (hhostne x hm)]
        exact hI.bound x id room hroom (Or.inl hm)
      · obtain ⟨hx1, hx2⟩ := mem_filter_ne.mp hm
        rw [if_neg hx2]
        exact hI.bound x id room hroom (Or.inr hx1)
    · rw [if_neg hid] at hr
      rw [if_neg (hnc x id r hr hid hm)]
      exact hI.bound x id r hr hm
  · intro id r hr
    rw [setConnRoom_rooms] at hr
    by_cases hid : id = rid
    · subst hid
      rw [if_pos rfl] at hr
      obtain rfl := Option.some.inj hr
      exact List.Nodup.filter _ (hI.nodup id room hroom)
    · rw [if_neg hid] at hr
      exact hI.nodup id r hr
  · intro id r h hr hh2
    rw [setConnRoom_rooms] at hr
    by_cases hid : id = rid
    · subst hid
      rw [if_pos rfl] at hr
      obtain rfl := Option.some.inj hr
      intro hmem
      obtain ⟨hx1, _⟩ := mem_filter_ne.mp hmem
      exact hI.hostNotClient id room h hroom hh2 hx1
    · rw [if_neg hid] at hr
      exact hI.hostNotClient id r h hr hh2
  · intro id r h hr hh2
    rw [setConnRoom_rooms] at hr
    rw [setConnRoom_conns]
    by_cases hid : id = rid
    · subst hid
      rw [if_pos rfl] at hr
      obtain rfl := Option.some.inj hr
      rw [if_neg (hhostne h hh2)]
      exact hI.hostFlag id room h hroom hh2
    · rw [if_neg hid] at hr
      rw [if_neg (hnc h id r hr hid (Or.inl hh2))]
      exact hI.hostFlag id r h hr hh2
  · intro x id r hr hm
    rw [setConnRoom_rooms] at hr
    rw [setConnRoom_conns]
    by_cases hid : id = rid
    · subst hid
      rw [if_pos rfl] at hr
      obtain rfl := Option.some.inj hr
      rcases hm with hm | hm
      · rw [if_neg (hhostne x hm)]
        exact hI.openMembers x id room hroom (Or.inl hm)
      · obtain ⟨hx1, hx2⟩ := mem_filter_ne.mp hm
        rw [if_neg hx2]
        exact hI.openMembers x id room hroom (Or.inr hx1)
    · rw [if_neg hid] at hr
      rw [if_neg (hnc x id r hr hid hm)]
      exact hI.openMembers x id r hr hm

theorem inv_step {st : ServerState} {e : Event} (hI : StInv st)
    (hwb : wbStep st e = true) : StInv (step st e).1 := by
  cases e with
  | recv c raw d =>
      cases d with
      | createRoom fresh =>
          simp only [wbStep, Bool.and_eq_true, Option.isNone_iff_eq_none] at hwb
          exact @inv_createRoom st c raw fresh hI hwb.1 hwb.2.1 hwb.2.2
      | joinRoom rid =>
          simp only [wbStep, Bool.and_eq_true, Option.isNone_iff_eq_none] at hwb
          rcases hrooms : st.rooms rid with _ | room
          · have hst : (step st (Event.recv c raw (Data.joinRoom rid))).1 = st := by
              show (handleMessage st c raw (Data.joinRoom rid)).1 = st
              rw [hm_joinRoom_none c raw hrooms]
            rw [hst]
            exact hI
          · exact @inv_joinRoom st c raw rid room hI hwb.1 hwb.2 hrooms
      | startGame => exact hI
      | offer p => exact hI
      | answer p => exact hI
      | candidate p => exact hI
      | gameState p => exact hI
      | input p => exact hI
      | other t => exact hI
  | close c =>
      rcases hrid : (st.conns c).roomId with _ | rid
      · have hst : (handleClose st c).1 =
            st.setConn c { st.conns c with readyState := false } := by
          rw [hc_unbound hrid]
        rw [step, hst]
        exact inv_setClosed hI (fun id r hr hm => by
          have hb := hI.bound c id r hr hm
          rw [hrid] at hb
          exact Option.noConfusion hb)
      · rcases hrooms : st.rooms rid with _ | room
        · have hst : (handleClose st c).1 =
              st.setConn c { st.conns c with readyState := false } := by
            rw [hc_noroom hrid hrooms]
          rw [step, hst]
          exact inv_setClosed hI (fun id r hr hm => by
            have hb := hI.bound c id r hr hm
            rw [hrid] at hb
            obtain rfl := Option.some.inj hb
            rw [hr] at hrooms
            exact Option.noConfusion hrooms)
        · rcases hhost : (st.conns c).isHost with _ | _
          · exact inv_closeClient hI hrid hrooms hhost
          · exact inv_closeHost hI hrid hrooms hhost

theorem inv_initState : StInv initState := by
  refine ⟨?_, ?_, ?_, ?_, ?_⟩
  · intro c id r hr hm
    exact Option.noConfusion hr
  · intro id r hr
    exact Option.noConfusion hr
  · intro id r h hr hh
    exact Option.noConfusion hr
  · intro id r h hr hh
    exact Option.noConfusion hr
  · intro c id r hr hm
    exact Option.noConfusion hr

theorem inv_runFrom {st : ServerState} (tr : List Event) (hI : StInv st)
    (hwb : WellBehaved st tr = true) : StInv (runFrom st tr) := by
  induction tr generalizing st with
  | nil => exact hI
  | cons e es ih =>
      simp only [WellBehaved, Bool.and_eq_true] at hwb
      exact ih (inv_step hI hwb.1) hwb.2

theorem inv_runTrace (tr : List Event) (hwb : WellBehaved initState tr = true) :
    StInv (runTrace tr) :=
  inv_runFrom tr inv_initState hwb

theorem sendToOpen_eq_map {st : ServerState} {w : Wire} {cls : List CID}
    (h : ∀ x ∈ cls, (st.conns x).readyState = true) :
    sendToOpen st w cls = cls.map (fun x => Emit.send x w) := by
  induction cls with
  | nil => rfl
  | cons a as ih =>
      rw [sendToOpen, h a (List.mem_cons_self a as),
        ih (fun x hx => h x (List.mem_cons_of_mem a hx))]
      simp

theorem mem_sendToOpen {st : ServerState} {w : Wire} {cls : List CID} {x : CID}
    (hx : x ∈ cls) (ho : (st.conns x).readyState = true) :
    Emit.send x w ∈ sendToOpen st w cls := by
  induction cls with
  | nil => cases hx
  | cons a as ih =>
      rw [sendToOpen]
      rcases List.mem_cons.mp hx with rfl | hx2
      · rw [ho]
        exact List.mem_append_left _ (List.mem_singleton.mpr rfl)
      · exact List.mem_append_right _ (ih hx2)

theorem sendToOpen_recipient {st : ServerState} {w wx : Wire} {cls : List CID} {x : CID}
    (h : Emit.send x wx ∈ sendToOpen st w cls) : x ∈ cls ∧ wx = w := by
  induction cls with
  | nil => cases h
  | cons a as ih =>
      rw [sendToOpen] at h
      rcases List.mem_append.mp h with h2 | h2
      · by_cases ho : (st.conns a).readyState = true
        · rw [ho] at h2
          rw [if_pos rfl] at h2
          rw [List.mem_singleton] at h2
          injection h2 with ha hw
          subst ha
          exact ⟨List.mem_cons_self _ _, hw⟩
        · rw [Bool.not_eq_true] at ho
          rw [ho] at h2
          simp at h2
      · obtain ⟨hm, hw⟩ := ih h2
        exact ⟨List.mem_cons_of_mem a hm, hw⟩

theorem mem_map_send {cls : List CID} {s : CID} {w w0 : Wire}
    (h : Emit.send s w ∈ cls.map (fun x => Emit.send x w0)) : s ∈ cls := by
  obtain ⟨x, hx, he⟩ := List.mem_map.mp h
  injection he with h1 h2
  exact h1 ▸ hx

theorem roomClosedActs_count {st : ServerState} {cls : List CID}
    (hopen : ∀ x ∈ cls, (st.conns x).readyState = true) (x : CID) :
    (roomClosedActs st cls).count (Emit.send x (Wire.json OutMsg.roomClosed)) = cls.count x
    ∧ (roomClosedActs st cls).count (Emit.closeConn x) = cls.count x := by
  induction cls with
  | nil => simp [roomClosedActs]
  | cons a as ih =>
      obtain ⟨ih1, ih2⟩ := ih (fun y hy => hopen y (List.mem_cons_of_mem a hy))
      rw [roomClosedActs, hopen a (List.mem_cons_self a as)]
      by_cases hax : a = x
      · subst hax
        simp [List.count_cons, List.count_append, ih1, ih2]
      · simp [List.count_cons, List.count_append, ih1, ih2, hax]

theorem length_filter_ne {l : List CID} {c : CID} (hnd : l.Nodup) (hm : c ∈ l) :
    (l.filter (fun x => x ≠ c)).length + 1 = l.length := by
  induction l with
  | nil => cases hm
  | cons a as ih =>
      obtain ⟨hna, hnd2⟩ := List.nodup_cons.mp hnd
      rcases List.mem_cons.mp hm with rfl | hm2
      · rw [List.filter_cons]
        have hfa : as.filter (fun x => x ≠ c) = as :=
          List.filter_eq_self.mpr (fun x hx => by
            simp only [ne_eq, decide_eq_true_eq]
            intro he
            exact hna (he ▸ hx))
        rw [if_neg (show ¬(decide (c ≠ c)) = true by simp), hfa, List.length_cons]
      · have hih := ih hnd2 hm2
        have hac : a ≠ c := fun he => hna (he ▸ hm2)
        rw [List.filter_cons, if_pos (show (decide (a ≠ c)) = true by simp [hac])]
        simp only [List.length_cons]
        omega

theorem hosts_step {st : ServerState} (e : Event)
    (hH : ∀ id r, st.rooms id = some r → r.host.isSome = true) :
    ∀ id r, (step st e).1.rooms id = some r → r.host.isSome = true := by
  intro id r hr
  cases e with
  | recv c raw d =>
      cases d with
      | createRoom fresh =>
          simp only [step, hm_createRoom] at hr
          rw [setRoomConn_rooms] at hr
          by_cases hid : id = fresh
          · rw [if_pos hid] at hr
            obtain rfl := Option.some.inj hr
            rfl
          · rw [if_neg hid] at hr
            exact hH id r hr
      | joinRoom rid =>
          rcases hrooms : st.rooms rid with _ | room
          · simp only [step, hm_joinRoom_none c raw hrooms] at hr
            exact hH id r hr
          · simp only [step, hm_joinRoom_some c raw hrooms] at hr
            rw [setConnRoom_rooms] at hr
            by_cases hid : id = rid
            · rw [if_pos hid] at hr
              obtain rfl := Option.some.inj hr
              subst hid
              exact hH id room hrooms
            · rw [if_neg hid] at hr
              exact hH id r hr
      | startGame => exact hH id r hr
      | offer p => exact hH id r hr
      | answer p => exact hH id r hr
      | candidate p => exact hH id r hr
      | gameState p => exact hH id r hr
      | input p => exact hH id r hr
      | other t => exact hH id r hr
  | close c =>
      rcases hrid : (st.conns c).roomId with _ | rid
      · simp only [step, hc_unbound hrid] at hr
        exact hH id r hr
      · rcases hrooms : st.rooms rid with _ | room
        · simp only [step, hc_noroom hrid hrooms] at hr
          exact hH id r hr
        · rcases hhost : (st.conns c).isHost with _ | _
          · simp only [step, hc_client hrid hrooms hhost] at hr
            rw [setConnRoom_rooms] at hr
            by_cases hid : id = rid
            · rw [if_pos hid] at hr
              obtain rfl := Option.some.inj hr
              subst hid
              exact hH id room hrooms
            · rw [if_neg hid] at hr
              exact hH id r hr
          · simp only [step, hc_host hrid hrooms hhost] at hr
            rw [setConnRoom_rooms] at hr
            by_cases hid : id = rid
            · rw [if_pos hid] at hr
              exact Option.noConfusion hr
            · rw [if_neg hid] at hr
              exact hH id r hr

theorem hosts_runFrom (tr : List Event) :
    ∀ st : ServerState, (∀ id r, st.rooms id = some r → r.host.isSome = true) →
      ∀ id r, (runFrom st tr).rooms id = some r → r.host.isSome = true := by
  induction tr with
  | nil => exact fun st hH => hH
  | cons e es ih => exact fun st hH => ih (step st e).1 (hosts_step e hH)

/-- C3: a joinRoom for an unknown room id yields exactly one reply, to
the sender only, and mutates neither the registry nor any connection
binding — but the reply text is the literal server string
"Sala no existe", not "room does not exist".  This counterexample shows
the reply sent at a concrete state, and that it differs from the
message the claim states. -/
theorem joinRoom_missing_msg_cex :
    (step initState (Event.recv 0 "j" (Data.joinRoom "missing"))).2 =
      [Emit.send 0 (Wire.json (OutMsg.error "Sala no existe"))] ∧
    Emit.send 0 (Wire.json (OutMsg.error "room does not exist")) ∉
      (step initState (Event.recv 0 "j" (Data.joinRoom "missing"))).2 := by
  exact ⟨rfl, by decide⟩

/-- C3 (amended): for every joinRoom message whose roomId is not in the
registry, the sender receives exactly one reply, namely
{type: error, message: "Sala no existe"}, no message is sent to any
other connection, and neither the registry nor any connection's
room/role binding is mutated (the resulting state is the input state). -/
theorem joinRoom_missing_reply (st : ServerState) (c : CID) (raw rid : String)
    (h : st.rooms rid = none) :
    step st (Event.recv c raw (Data.joinRoom rid)) =
      (st, [Emit.send c (Wire.json (OutMsg.error "Sala no existe"))]) :=
  hm_joinRoom_none c raw h

/-- Witness for C3's amended theorem at a concrete state. -/
theorem joinRoom_missing_reply_w :
    step initState (Event.recv 0 "j" (Data.joinRoom "nope")) =
      (initState, [Emit.send 0 (Wire.json (OutMsg.error "Sala no existe"))]) :=
  joinRoom_missing_reply initState 0 "j" "nope" rfl

/-- C10: an input message received from a connection that is a room's
host (ws.isHost set) is silently dropped: no forward to anyone, and the
state — registry and every binding — is left exactly as it was. -/
theorem host_input_dropped (st : ServerState) (c : CID) (raw p rid : String) (r : Room)
    (hroom : st.rooms rid = some r) (hhost : r.host = some c)
    (hflag : (st.conns c).isHost = true) :
    step st (Event.recv c raw (Data.input p)) = (st, []) := by
  show handleMessage st c raw (Data.input p) = _
  simp [handleMessage, hflag]

/-- Witness for C10 at a concrete state where connection 0 hosts room
"A". -/
theorem host_input_dropped_w :
    step smallSt (Event.recv 0 "i" (Data.input "x")) = (smallSt, []) :=
  host_input_dropped smallSt 0 "i" "x" "A" { host := some 0, clients := [1, 2] }
    (by decide) (by decide) (by decide)

/-- C5: an input message received from a client of an existing room is
forwarded to the room's host only, and the payload is the raw received
frame itself (Wire.raw raw), not a re-serialized message — Wire.raw is
never equal to any Wire.json serialization. -/
theorem input_forward_raw (st : ServerState) (c h : CID) (raw p rid : String) (r : Room)
    (hflag : (st.conns c).isHost = false) (hbound : (st.conns c).roomId = some rid)
    (hroom : st.rooms rid = some r) (hhost : r.host = some h)
    (hopen : (st.conns h).readyState = true) :
    step st (Event.recv c raw (Data.input p)) = (st, [Emit.send h (Wire.raw raw)])
    ∧ ∀ m : OutMsg, Wire.raw raw ≠ Wire.json m := by
  constructor
  · show handleMessage st c raw (Data.input p) = _
    simp [handleMessage, hflag, hbound, hroom, hhost, hopen]
  · intro m he
    exact Wire.noConfusion he

/-- Witness for C5: client 1 of room "A" sends raw frame "RAW"; host 0
receives exactly that frame. -/
theorem input_forward_raw_w :
    step smallSt (Event.recv 1 "RAW" (Data.input "x")) = (smallSt, [Emit.send 0 (Wire.raw "RAW")])
    ∧ ∀ m : OutMsg, Wire.raw "RAW" ≠ Wire.json m :=
  input_forward_raw smallSt 1 0 "RAW" "x" "A" { host := some 0, clients := [1, 2] }
    (by decide) (by decide) (by decide) (by decide) (by decide)

/-- C1: the claim asserts that a connection joining the same room twice
does not appear twice in its clients list.  Counterexample: after
connection 1 creates room "A" and connection 0 sends joinRoom "A"
twice, the reachable registry holds room "A" with clients [0, 0] —
connection 0 occurs twice. -/
theorem joinRoom_rebind_cex :
    (runTrace doubleJoinTrace).rooms "A" = some { host := some 1, clients := [0, 0] }
    ∧ ({ host := some 1, clients := [0, 0] } : Room).clients.count 0 = 2 := by
  exact ⟨by decide, by decide⟩

/-- C1 (amended): in every state reached by a trace in which each
connection sends createRoom / joinRoom only while not yet bound to a
room (and generated room ids are fresh), each connection appears in at
most one room's membership: never as both host and client of a room,
never twice in a clients list, and never in two distinct rooms.  The
code itself does not enforce the proviso: a bound connection that sends
joinRoom again is added to a second membership (see the
counterexample). -/
theorem membership_exclusive (tr : List Event)
    (hwb : WellBehaved initState tr = true) :
    (∀ id r h, (runTrace tr).rooms id = some r → r.host = some h → h ∉ r.clients)
    ∧ (∀ id r x, (runTrace tr).rooms id = some r → r.clients.count x ≤ 1)
    ∧ (∀ id1 id2 r1 r2 x, (runTrace tr).rooms id1 = some r1 →
        (runTrace tr).rooms id2 = some r2 → memberOf r1 x → memberOf r2 x → id1 = id2) := by
  have hI := inv_runTrace tr hwb
  refine ⟨fun id r h hr hh => hI.hostNotClient id r h hr hh, ?_, ?_⟩
  · intro id r x hr
    exact List.nodup_iff_count_le_one.mp (hI.nodup id r hr) x
  · intro id1 id2 r1 r2 x h1 h2 hm1 hm2
    have b1 := hI.bound x id1 r1 h1 hm1
    have b2 := hI.bound x id2 r2 h2 hm2
    rw [b1] at b2
    exact Option.some.inj b2

/-- Witness for C1's amended theorem: on the concrete well-behaved
trace smallTrace, client 1 of room "A" occurs at most once. -/
theorem membership_exclusive_w :
    ({ host := some 0, clients := [1, 2] } : Room).clients.count 1 ≤ 1 :=
  (membership_exclusive smallTrace (by decide)).2.1 "A"
    { host := some 0, clients := [1, 2] } 1 (by decide)

/-- C9: in every reachable state — no admissibility proviso needed —
every room present in the registry has a non-null host reference (it is
assigned at creation and never nulled or dropped while the room
exists), and consequently the player-list payload for the room always
starts with the host entry. -/
theorem rooms_host_nonnull (tr : List Event) :
    ∀ id r, (runTrace tr).rooms id = some r →
      r.host.isSome = true
      ∧ (playersFor r).head? = some { id := "host", name := "Host" } := by
  intro id r hr
  have hs := hosts_runFrom tr initState
    (fun id2 r2 hr2 => Option.noConfusion hr2) id r hr
  refine ⟨hs, ?_⟩
  rcases hh : r.host with _ | h
  · rw [hh] at hs
    exact Bool.noConfusion hs
  · simp [playersFor, hh]

/-- Witness for C9 on a concrete reachable room. -/
theorem rooms_host_nonnull_w :
    ({ host := some 1, clients := [0, 0] } : Room).host.isSome = true
    ∧ (playersFor { host := some 1, clients := [0, 0] }).head? =
        some { id := "host", name := "Host" } :=
  rooms_host_nonnull doubleJoinTrace "A" { host := some 1, clients := [0, 0] } (by decide)

theorem step_signal_acts {st : ServerState} {s : CID} {raw p : String} {d : Data}
    (hd : d = Data.offer p ∨ d = Data.answer p ∨ d = Data.candidate p) :
    step st (Event.recv s raw d) = (st, handleWebRTCSignaling st s d) := by
  rcases hd with rfl | rfl | rfl <;> rfl

/-- C4: an offer / answer / candidate message from a sender bound to an
existing room is relayed unmodified (as the serialized echo of the same
parsed data): when the sender is the host it goes to every client of
the room and never back to the host; when the sender is a client it
goes to the host only and to no client. -/
theorem signal_relay_direction (st : ServerState) (s : CID) (raw p rid : String) (r : Room)
    (d : Data) (hd : d = Data.offer p ∨ d = Data.answer p ∨ d = Data.candidate p)
    (hbound : (st.conns s).roomId = some rid) (hroom : st.rooms rid = some r) :
    ((st.conns s).isHost = true →
      (∀ x ∈ r.clients, (st.conns x).readyState = true) → s ∉ r.clients →
        step st (Event.recv s raw d) =
          (st, r.clients.map (fun x => Emit.send x (Wire.json (OutMsg.echo d))))
        ∧ ∀ w, Emit.send s w ∉ (step st (Event.recv s raw d)).2)
    ∧ (∀ h, (st.conns s).isHost = false → r.host = some h →
        (st.conns h).readyState = true → h ∉ r.clients →
          step st (Event.recv s raw d) = (st, [Emit.send h (Wire.json (OutMsg.echo d))])
          ∧ ∀ x ∈ r.clients, ∀ w, Emit.send x w ∉ (step st (Event.recv s raw d)).2) := by
  rw [step_signal_acts hd]
  constructor
  · intro hflag hopen hns
    have hacts : handleWebRTCSignaling st s d =
        r.clients.map (fun x => Emit.send x (Wire.json (OutMsg.echo d))) := by
      simp [handleWebRTCSignaling, hbound, hroom, hflag, sendToOpen_eq_map hopen]
    rw [hacts]
    refine ⟨rfl, ?_⟩
    intro w hw
    exact hns (mem_map_send hw)
  · intro h hflag hhost hopen hhc
    have hacts : handleWebRTCSignaling st s d = [Emit.send h (Wire.json (OutMsg.echo d))] := by
      simp [handleWebRTCSignaling, hbound, hroom, hflag, hhost, hopen]
    rw [hacts]
    refine ⟨rfl, ?_⟩
    intro x hx w hw
    rw [List.mem_singleton] at hw
    injection hw with h1 h2
    subst h1
    exact hhc hx

/-- Witness for C4, host side: host 0 of room "A" sends an offer; it is
delivered to clients 1 and 2 and not back to 0. -/
theorem signal_relay_direction_w :
    step smallSt (Event.recv 0 "o" (Data.offer "sdp")) =
      (smallSt, [Emit.send 1 (Wire.json (OutMsg.echo (Data.offer "sdp"))),
                 Emit.send 2 (Wire.json (OutMsg.echo (Data.offer "sdp")))])
    ∧ ∀ w, Emit.send 0 w ∉ (step smallSt (Event.recv 0 "o" (Data.offer "sdp"))).2 :=
  (signal_relay_direction smallSt 0 "o" "sdp" "A" { host := some 0, clients := [1, 2] }
    (Data.offer "sdp") (Or.inl rfl) (by decide) (by decide)).1 (by decide) (by decide) (by decide)

/-- C6: for a room whose host is present and whose members are open,
the player-list broadcast sends one identical playerList payload to the
host and to each of the N clients, and that payload has exactly N+1
entries: the host entry first, then one entry per client in list order
with its label derived from its position. -/
theorem playerList_broadcast_shape (st : ServerState) (rid : String) (r : Room) (h : CID)
    (hroom : st.rooms rid = some r) (hh : r.host = some h)
    (hhopen : (st.conns h).readyState = true)
    (hcopen : ∀ x ∈ r.clients, (st.conns x).readyState = true) :
    broadcastPlayerList st rid =
      Emit.send h (Wire.json (OutMsg.playerList (playersFor r))) ::
        r.clients.map (fun x => Emit.send x (Wire.json (OutMsg.playerList (playersFor r))))
    ∧ (playersFor r).length = r.clients.length + 1
    ∧ (playersFor r).head? = some { id := "host", name := "Host" }
    ∧ ∀ i, i < r.clients.length →
        (playersFor r).get? (i + 1) =
          some { id := "client-" ++ toString i, name := "Cliente " ++ toString i } := by
  refine ⟨?_, ?_, ?_, ?_⟩
  · simp [broadcastPlayerList, hroom, hh, hhopen, sendToOpen_eq_map hcopen]
  · simp [playersFor, hh, Nat.add_comm]
  · simp [playersFor, hh]
  · intro i hi
    simp [playersFor, hh, List.getElem?_map, List.getElem?_range, hi]

/-- Witness for C6 on room "A" with two clients. -/
theorem playerList_broadcast_shape_w :
    broadcastPlayerList smallSt "A" =
      Emit.send 0 (Wire.json (OutMsg.playerList
        (playersFor { host := some 0, clients := [1, 2] }))) ::
        [1, 2].map (fun x => Emit.send x (Wire.json (OutMsg.playerList
          (playersFor { host := some 0, clients := [1, 2] }))))
    ∧ (playersFor { host := some 0, clients := [1, 2] }).length = ([1, 2] : List CID).length + 1
    ∧ (playersFor { host := some 0, clients := [1, 2] }).head? =
        some { id := "host", name := "Host" }
    ∧ ∀ i, i < ([1, 2] : List CID).length →
        (playersFor { host := some 0, clients := [1, 2] }).get? (i + 1) =
          some { id := "client-" ++ toString i, name := "Cliente " ++ toString i } :=
  playerList_broadcast_shape smallSt "A" { host := some 0, clients := [1, 2] } 0
    (by decide) (by decide) (by decide) (by decide)

/-- C7: a gameState message from a member (host or client) of an
existing room is broadcast, as the serialized echo of the same parsed
data, to every member of the room — the host and all clients — with no
self-exclusion: the sender, being a member, receives it too. -/
theorem gameState_broadcast_all (st : ServerState) (s hh : CID) (raw p rid : String) (r : Room)
    (hbound : (st.conns s).roomId = some rid) (hroom : st.rooms rid = some r)
    (hhost : r.host = some hh) (hhopen : (st.conns hh).readyState = true)
    (hcopen : ∀ x ∈ r.clients, (st.conns x).readyState = true)
    (hmem : memberOf r s) :
    (step st (Event.recv s raw (Data.gameState p))).1 = st
    ∧ (step st (Event.recv s raw (Data.gameState p))).2 =
        Emit.send hh (Wire.json (OutMsg.echo (Data.gameState p))) ::
          r.clients.map (fun x => Emit.send x (Wire.json (OutMsg.echo (Data.gameState p))))
    ∧ (∀ x, memberOf r x →
        Emit.send x (Wire.json (OutMsg.echo (Data.gameState p))) ∈
          (step st (Event.recv s raw (Data.gameState p))).2)
    ∧ Emit.send s (Wire.json (OutMsg.echo (Data.gameState p))) ∈
        (step st (Event.recv s raw (Data.gameState p))).2 := by
  have hacts : (step st (Event.recv s raw (Data.gameState p))).2 =
      Emit.send hh (Wire.json (OutMsg.echo (Data.gameState p))) ::
        r.clients.map (fun x => Emit.send x (Wire.json (OutMsg.echo (Data.gameState p)))) := by
    show (handleMessage st s raw (Data.gameState p)).2 = _
    simp [handleMessage, hbound, hroom, broadcastInRoom, hhost, hhopen,
      sendToOpen_eq_map hcopen]
  have hmemsend : ∀ x, memberOf r x →
      Emit.send x (Wire.json (OutMsg.echo (Data.gameState p))) ∈
        (step st (Event.recv s raw (Data.gameState p))).2 := by
    intro x hm
    rw [hacts]
    rcases hm with hm | hm
    · rw [hhost] at hm
      obtain rfl := Option.some.inj hm
      exact List.mem_cons_self _ _
    · exact List.mem_cons_of_mem _ (List.mem_map.mpr ⟨x, hm, rfl⟩)
  exact ⟨rfl, hacts, hmemsend, hmemsend s hmem⟩

/-- Witness for C7: client 1 of room "A" sends gameState; host 0,
client 1 (the sender) and client 2 all receive it. -/
theorem gameState_broadcast_all_w :
    (step smallSt (Event.recv 1 "g" (Data.gameState "s"))).1 = smallSt
    ∧ (step smallSt (Event.recv 1 "g" (Data.gameState "s"))).2 =
        Emit.send 0 (Wire.json (OutMsg.echo (Data.gameState "s"))) ::
          [1, 2].map (fun x => Emit.send x (Wire.json (OutMsg.echo (Data.gameState "s"))))
    ∧ (∀ x, memberOf { host := some 0, clients := [1, 2] } x →
        Emit.send x (Wire.json (OutMsg.echo (Data.gameState "s"))) ∈
          (step smallSt (Event.recv 1 "g" (Data.gameState "s"))).2)
    ∧ Emit.send 1 (Wire.json (OutMsg.echo (Data.gameState "s"))) ∈
        (step smallSt (Event.recv 1 "g" (Data.gameState "s"))).2 :=
  gameState_broadcast_all smallSt 1 0 "g" "s" "A" { host := some 0, clients := [1, 2] }
    (by decide) (by decide) (by decide) (by decide) (by decide) (by decide)

/-- C2: when the host of a room disconnects, every client registered in
the room at that moment is sent exactly one roomClosed message and
closed exactly once (both counted over the action list, which is built
from the client list as it stood before the deletion — notify happens
before removal), afterwards the room is gone from the registry, and any
subsequent joinRoom naming that room id fails with the room-not-found
error reply and no further effect.  The hypotheses (host flag and
binding, no duplicate clients, host not listed as client, members open)
hold in every well-behaved reachable state by StInv / inv_runTrace. -/
theorem host_close_teardown (st : ServerState) (h : CID) (rid : String) (r : Room)
    (hroom : st.rooms rid = some r) (hhost : r.host = some h)
    (hbound : (st.conns h).roomId = some rid) (hflag : (st.conns h).isHost = true)
    (hnd : r.clients.Nodup) (hnh : h ∉ r.clients)
    (hcopen : ∀ x ∈ r.clients, (st.conns x).readyState = true) :
    (∀ x ∈ r.clients,
        (step st (Event.close h)).2.count (Emit.send x (Wire.json OutMsg.roomClosed)) = 1
        ∧ (step st (Event.close h)).2.count (Emit.closeConn x) = 1)
    ∧ (step st (Event.close h)).1.rooms rid = none
    ∧ (∀ c2 raw2,
        step (step st (Event.close h)).1 (Event.recv c2 raw2 (Data.joinRoom rid)) =
          ((step st (Event.close h)).1,
           [Emit.send c2 (Wire.json (OutMsg.error "Sala no existe"))])) := by
  have hstep : step st (Event.close h) =
      ((st.setConn h { st.conns h with readyState := false }).setRoom rid none,
       roomClosedActs (st.setConn h { st.conns h with readyState := false }) r.clients) :=
    hc_host hbound hroom hflag
  have hopen0 : ∀ x ∈ r.clients,
      ((st.setConn h { st.conns h with readyState := false }).conns x).readyState = true := by
    intro x hx
    have hxh : x ≠ h := fun he => hnh (he ▸ hx)
    rw [setConn_conns_other st h x _ hxh]
    exact hcopen x hx
  have hgone : (step st (Event.close h)).1.rooms rid = none := by
    rw [hstep]
    rw [setConnRoom_rooms]
    rw [if_pos rfl]
  refine ⟨?_, hgone, ?_⟩
  · intro x hx
    have hcount := roomClosedActs_count hopen0 x
    have hone : r.clients.count x = 1 := List.count_eq_one_of_mem hnd hx
    rw [hstep]
    rw [hone] at hcount
    exact hcount
  · intro c2 raw2
    exact hm_joinRoom_none c2 raw2 hgone

/-- Witness for C2: host 0 of room "A" (clients 1 and 2) disconnects. -/
theorem host_close_teardown_w :
    (∀ x ∈ ({ host := some 0, clients := [1, 2] } : Room).clients,
        (step smallSt (Event.close 0)).2.count (Emit.send x (Wire.json OutMsg.roomClosed)) = 1
        ∧ (step smallSt (Event.close 0)).2.count (Emit.closeConn x) = 1)
    ∧ (step smallSt (Event.close 0)).1.rooms "A" = none
    ∧ (∀ c2 raw2,
        step (step smallSt (Event.close 0)).1 (Event.recv c2 raw2 (Data.joinRoom "A")) =
          ((step smallSt (Event.close 0)).1,
           [Emit.send c2 (Wire.json (OutMsg.error "Sala no existe"))])) :=
  host_close_teardown smallSt 0 "A" { host := some 0, clients := [1, 2] }
    (by decide) (by decide) (by decide) (by decide) (by decide) (by decide) (by decide)

/-- C8: when a client (not the host) of an existing room disconnects,
exactly that client is removed from the room's clients list (it is no
longer present; every other client's presence is unchanged; the length
drops by one), the room record keeps its host, all other rooms and all
other connections' bindings are untouched, the emitted actions are
exactly one player-list rebroadcast computed on the updated room, the
departed client receives nothing, and the rebroadcast payload has one
entry fewer than before (the departed client's entry is omitted). -/
theorem client_close_frame (st : ServerState) (c : CID) (rid : String) (r : Room)
    (hbound : (st.conns c).roomId = some rid) (hflag : (st.conns c).isHost = false)
    (hroom : st.rooms rid = some r) (hmem : c ∈ r.clients) (hnd : r.clients.Nodup)
    (hhost : r.host.isSome = true) :
    (step st (Event.close c)).1.rooms rid =
        some { host := r.host, clients := r.clients.filter (fun x => x ≠ c) }
    ∧ c ∉ r.clients.filter (fun x => x ≠ c)
    ∧ (∀ x, x ≠ c → (x ∈ r.clients.filter (fun y => y ≠ c) ↔ x ∈ r.clients))
    ∧ (r.clients.filter (fun x => x ≠ c)).length + 1 = r.clients.length
    ∧ (∀ id, id ≠ rid → (step st (Event.close c)).1.rooms id = st.rooms id)
    ∧ (∀ x, x ≠ c → (step st (Event.close c)).1.conns x = st.conns x)
    ∧ (step st (Event.close c)).2 = broadcastPlayerList (step st (Event.close c)).1 rid
    ∧ (∀ w, Emit.send c w ∉ (step st (Event.close c)).2)
    ∧ (playersFor { host := r.host, clients := r.clients.filter (fun x => x ≠ c) }).length + 1 =
        (playersFor r).length := by
  have hstep : step st (Event.close c) =
      (((st.setConn c { st.conns c with readyState := false }).setRoom rid
          (some { r with clients := r.clients.filter (fun x => x ≠ c) })),
       broadcastPlayerList
         ((st.setConn c { st.conns c with readyState := false }).setRoom rid
           (some { r with clients := r.clients.filter (fun x => x ≠ c) })) rid) :=
    hc_client hbound hroom hflag
  have hlook : (step st (Event.close c)).1.rooms rid =
      some { host := r.host, clients := r.clients.filter (fun x => x ≠ c) } := by
    rw [hstep]
    rw [setConnRoom_rooms]
    rw [if_pos rfl]
  obtain ⟨hh, hhh⟩ := Option.isSome_iff_exists.mp hhost
  have hlen := length_filter_ne hnd hmem
  refine ⟨hlook, ?_, ?_, hlen, ?_, ?_, ?_, ?_, ?_⟩
  · simp [List.mem_filter]
  · intro x hx
    simp [List.mem_filter, hx]
  · intro id hid
    rw [hstep]
    rw [setConnRoom_rooms]
    rw [if_neg hid]
  · intro x hx
    rw [hstep]
    rw [setConnRoom_conns]
    rw [if_neg hx]
  · rw [hstep]
  · intro w hw
    rw [hstep] at hw
    rw [broadcastPlayerList] at hw
    rw [setConnRoom_rooms, if_pos rfl] at hw
    simp only [hhh] at hw
    rcases List.mem_append.mp hw with h2 | h2
    · rw [setConnRoom_conns] at h2
      by_cases hhc : hh = c
      · rw [if_pos hhc] at h2
        simp at h2
      · rw [if_neg hhc] at h2
        by_cases hrs : (st.conns hh).readyState = true
        · rw [if_pos hrs] at h2
          rw [List.mem_singleton] at h2
          injection h2 with h3 h4
          exact hhc h3.symm
        · rw [if_neg hrs] at h2
          simp at h2
    · obtain ⟨hcf, _⟩ := sendToOpen_recipient h2
      rw [List.mem_filter] at hcf
      simp at hcf
  · simp only [playersFor, hhh, List.length_append, List.length_map, List.length_range,
      List.length_cons]
    omega

/-- Witness for C8: client 2 of room "A" disconnects; only it is
removed and only one rebroadcast (omitting it) is emitted. -/
theorem client_close_frame_w :
    (step smallSt (Event.close 2)).1.rooms "A" =
        some { host := some 0, clients := ([1, 2] : List CID).filter (fun x => x ≠ 2) }
    ∧ (2 : CID) ∉ ([1, 2] : List CID).filter (fun x => x ≠ 2)
    ∧ (∀ x : CID, x ≠ 2 → (x ∈ ([1, 2] : List CID).filter (fun y => y ≠ 2) ↔ x ∈ ([1, 2] : List CID)))
    ∧ (([1, 2] : List CID).filter (fun x => x ≠ 2)).length + 1 = ([1, 2] : List CID).length
    ∧ (∀ id, id ≠ "A" → (step smallSt (Event.close 2)).1.rooms id = smallSt.rooms id)
    ∧ (∀ x : CID, x ≠ 2 → (step smallSt (Event.close 2)).1.conns x = smallSt.conns x)
    ∧ (step smallSt (Event.close 2)).2 = broadcastPlayerList (step smallSt (Event.close 2)).1 "A"
    ∧ (∀ w, Emit.send 2 w ∉ (step smallSt (Event.close 2)).2)
    ∧ (playersFor { host := some 0, clients := ([1, 2] : List CID).filter (fun x => x ≠ 2) }).length + 1 =
        (playersFor { host := some 0, clients := [1, 2] }).length :=
  client_close_frame smallSt 2 "A" { host := some 0, clients := [1, 2] }
    (by decide) (by decide) (by decide) (by decide) (by decide) (by decide)
